import Mathlib

/-!
Verification of the macro-regime scoring engine
(`scripts/update_macro.py` of the Earning-events-calendar repository).

The Python code is shallowly embedded below.  Floating point numbers that
carry data are modelled as rationals (`ℚ`), quantities that pass through
`sqrt`/`exp` are modelled as reals (`ℝ`), and Python's `NaN`
("undefined") is modelled as `Option.none`.  Pandas timestamps are
abstracted to integer month indices (the resampling key "first day of
month" becomes the month index itself); within a month, chronological
order is list order.
-/

namespace UpdateMacro

/-! ### `clamp` (update_macro.py, lines 102-105)

`clamp(x, lo, hi)`: a `NaN` input maps to `0.0`, otherwise the value is
clamped to `[lo, hi]`.  The possibly-`NaN` float argument is modelled as
`Option α`. -/

def clamp {α : Type} [LinearOrderedField α] (x : Option α) (lo hi : α) : α :=
  match x with
  | none => 0
  | some v => max lo (min hi v)

/-! ### `regime_from_score` (update_macro.py, lines 108-113) -/

def regime_from_score {α : Type} [LinearOrderedField α] (score : α) : String :=
  if score ≥ 0.5 then "bull"
  else if score ≤ -0.5 then "bear"
  else "neutral"

/-! ### Composite scorer (update_macro.py, lines 159-189)

The per-indicator z-scores reaching the scoring loop are abstracted as an
assignment `zs : String → Option α` from the indicator key to its
(possibly undefined) z-score; the loop body is embedded literally:
`z_adj = direction * z` (`NaN` propagates through the product),
`z_adj = clamp(z_adj, -3, 3)`, `contrib = weight * z_adj`, and finally
`score_now = clamp(nansum(contribs), -2, 2)` (the contributions are
clamp outputs, hence never `NaN`, so `nansum` is an ordinary sum). -/

structure DriverSpec where
  key : String
  name : String
  direction : ℤ
  weight : ℚ

def driver_specs : List DriverSpec :=
  [⟨"CPI_YOY", "Inflation (CPI YoY)", -1, 3/10⟩,
   ⟨"UNRATE", "Unemployment rate", -1, 1/4⟩,
   ⟨"FEDFUNDS", "Fed Funds", -1, 1/5⟩,
   ⟨"T10Y2Y", "Yield curve (10Y-2Y)", 1, 3/20⟩,
   ⟨"BAMLH0A0HYM2", "Credit stress (HY OAS)", -1, 1/10⟩]

/-- `direction * z` with `NaN` (`none`) propagating. -/
def nanMul {α : Type} [LinearOrderedField α] (c : ℤ) (z : Option α) : Option α :=
  z.map (fun v => (c : α) * v)

/-- One iteration of the scoring loop: `weight * clamp(direction * z, -3, 3)`. -/
def contribution {α : Type} [LinearOrderedField α] (d : DriverSpec) (z : Option α) : α :=
  (d.weight : α) * clamp (nanMul d.direction z) (-3) 3

/-- The list `contribs` accumulated by the loop. -/
def driverContribs {α : Type} [LinearOrderedField α] (zs : String → Option α) : List α :=
  driver_specs.map (fun d => contribution d (zs d.key))

/-- `score_now = clamp(float(np.nansum(contribs)), -2, 2)`. -/
def score_now {α : Type} [LinearOrderedField α] (zs : String → Option α) : α :=
  clamp (some (driverContribs zs).sum) (-2) 2

/-! ### `zscore` (update_macro.py, lines 89-99)

`zscore(series, window=120)` drops missing values, requires at least
`max(24, window // 4)` points, takes the trailing `window` observations
(`s.iloc[-window:]`, which is all of `s` when `len(s) < window`, and also
all of `s` for `window = 0` because `iloc[-0:]` is the whole series),
computes the population mean and the population standard deviation
(`std(ddof=0)`, i.e. `sqrt` of the `N`-divisor variance) over that slice,
returns `NaN` when the standard deviation is `0` (the `NaN`-σ branch of
the code is unreachable: the slice is nonempty whenever the length test
passed), and otherwise returns `(s.iloc[-1] - mean) / std`.  Series
values are rationals; the result is real because of the square root. -/

/-- Population mean (`tail.mean()`). -/
def popMean (l : List ℚ) : ℚ := l.sum / l.length

/-- Population variance, `N` divisor: `tail.std(ddof=0) ^ 2`. -/
def popVar (l : List ℚ) : ℚ := ((l.map (fun x => (x - popMean l) ^ 2)).sum) / l.length

/-- The trailing slice `s.iloc[-window:] if len(s) >= window else s`. -/
def trail (s : List ℚ) (window : ℕ) : List ℚ :=
  if window = 0 then s else s.drop (s.length - window)

noncomputable def zscore (series : List (Option ℚ)) (window : ℕ) : Option ℝ :=
  let s := series.filterMap id
  if s.length < max 24 (window / 4) then none
  else
    let t := trail s window
    if popVar t = 0 then none
    else some (((s.getLastD 0 - popMean t : ℚ) : ℝ) / Real.sqrt (popVar t))

/-! ### `exp_decay_curve` (update_macro.py, lines 116-122)

`exp_decay_curve(score_now, months=12, k=0.22)` returns
`[score_now * exp(-k * m) for m in range(months)]`. -/

noncomputable def exp_decay_curve (score : ℝ) (months : ℕ) (k : ℝ) : List ℝ :=
  (List.range months).map (fun m : ℕ => score * Real.exp (-k * (m : ℝ)))

/-! ### `to_monthly` (update_macro.py, lines 66-78)

`to_monthly(df, how)` resamples a `(date, value)` frame to a monthly
index: `s.resample("MS").last()` (or `.mean()`).  Pandas `resample`
produces one bin for **every** calendar month between the first and last
observation, with `NaN` for empty bins; `.last()` takes the last
non-missing value of the bin and `.mean()` the mean of the non-missing
values (`NaN` if there are none).  Dates are abstracted to integer month
indices, chronological order inside a month being list order. -/

/-- The non-missing values falling in month `m`, in chronological order. -/
def bucket (df : List (ℤ × Option ℚ)) (m : ℤ) : List ℚ :=
  (df.filter (fun p => p.1 == m)).filterMap (fun p => p.2)

/-- `.last()` aggregation of a bin: last non-missing value, if any. -/
def aggLast (l : List ℚ) : Option ℚ := l.getLast?

/-- `.mean()` aggregation of a bin: mean of the non-missing values. -/
def aggMean (l : List ℚ) : Option ℚ :=
  if l.isEmpty then none else some (l.sum / l.length)

def to_monthly (df : List (ℤ × Option ℚ)) (how : String) : List (ℤ × Option ℚ) :=
  match (df.map (fun p => p.1)).min?, (df.map (fun p => p.1)).max? with
  | some lo, some hi =>
      (List.range ((hi - lo).toNat + 1)).map (fun j : ℕ =>
        (lo + (j : ℤ),
         if how = "mean" then aggMean (bucket df (lo + (j : ℤ)))
         else aggLast (bucket df (lo + (j : ℤ)))))
  | _, _ => []

/-! ### `yoy_from_level` (update_macro.py, lines 81-86)

`yoy_from_level(monthly_df)` sorts by month (pandas `sort_values` is a
stable sort, embedded as a stable insertion sort) and computes
`pct_change(12) * 100` on the value column.  `pct_change(periods)` with
its default `fill_method="pad"` (the repository pins no pandas version;
every pandas < 3 pads by default) first **forward-fills** the column —
each missing value is replaced by the most recent earlier non-missing
value, leading missing values staying missing — and then positionally
divides row `i` by row `i - 12` and subtracts `1`: the result is `NaN`
when `i < 12` or either forward-filled operand is missing, `±inf` when
the denominator is zero and the numerator is not (IEEE division, sign of
the numerator), `NaN` for `0/0`, and the finite ratio otherwise.
`dropna(subset=["yoy"])` then drops exactly the `NaN` rows — infinite
values are kept — leaving `(month, yoy)`. -/

/-- Stable insertion of `a` into `l` by the key `key` (an element is
placed before the first element whose key is `≥` its own). -/
def insertKeyed {α β : Type} [LinearOrder β] (key : α → β) (a : α) : List α → List α
  | [] => [a]
  | b :: l => if key a ≤ key b then a :: b :: l else b :: insertKeyed key a l

/-- Stable insertion sort by a key (the behaviour of Python's `sorted` /
pandas `sort_values`). -/
def sortKeyed {α β : Type} [LinearOrder β] (key : α → β) (l : List α) : List α :=
  l.foldr (insertKeyed key) []

/-- A non-`NaN` float produced by the yoy computation: a finite value or
`±inf` (`NaN` stays `Option.none` outside this type, as everywhere in
this file). -/
inductive FloatVal where
  | fin : ℚ → FloatVal
  | posInf : FloatVal
  | negInf : FloatVal
deriving DecidableEq

/-- Forward fill with accumulator `last` (the most recent non-missing
value seen so far). -/
def ffillAux (last : Option ℚ) : List (Option ℚ) → List (Option ℚ)
  | [] => []
  | some q :: rest => some q :: ffillAux (some q) rest
  | none :: rest => last :: ffillAux last rest

/-- pandas forward fill (`fillna(method="pad")`): every missing value is
replaced by the most recent earlier non-missing value; leading missing
values stay missing. -/
def ffill (vals : List (Option ℚ)) : List (Option ℚ) := ffillAux none vals

/-- The most recent non-missing value at or before index `i` — the value
`ffill` puts at position `i`. -/
def lastObs (vals : List (Option ℚ)) (i : ℕ) : Option ℚ :=
  ((vals.take (i + 1)).filterMap id).getLast?

/-- One entry of `pct_change(12) * 100` after forward-filling: current
value `c` against the value `p` twelve rows earlier.
`(c / p - 1) * 100` when both are present and `p ≠ 0`; `±inf` (sign of
the numerator) when `p = 0 ≠ c`; `NaN` when either is missing or for
`0/0`. -/
def pctStep (c p : Option ℚ) : Option FloatVal :=
  match c, p with
  | some a, some b =>
    if b = 0 then
      if a = 0 then none
      else if 0 < a then some FloatVal.posInf else some FloatVal.negInf
    else some (FloatVal.fin ((a / b - 1) * 100))
  | _, _ => none

/-- `pct_change(12) * 100` on a value column with the default
`fill_method="pad"`: forward-fill, then pair each row with the row 12
positions earlier (expressed by zipping the filled column with itself
shifted by 12; the first 12 entries are `NaN`). -/
def pctChange12 (vals : List (Option ℚ)) : List (Option FloatVal) :=
  List.replicate (min 12 vals.length) none ++
    List.zipWith pctStep ((ffill vals).drop 12) (ffill vals)

def yoy_from_level (x : List (ℤ × Option ℚ)) : List (ℤ × FloatVal) :=
  ((sortKeyed (fun p => p.1) x).zip
      (pctChange12 ((sortKeyed (fun p => p.1) x).map (fun p => p.2)))).filterMap
    (fun q => q.2.map (fun y => (q.1.1, y)))

/-! ### `main` (update_macro.py, lines 212-265)

The orchestrator: compute score and drivers, build the 12-month decay
curve, build one row per projected month (reusing the same driver list),
upsert each row, build the run summary (best/worst driver by
contribution, Python's stable `sorted`), insert a success log entry and
return; on any exception `e` in this `try` block, the `except` handler
inserts an error log entry `{status: "error", summary: {}, error: str(e)}`
and re-raises.  The handler's insert is itself unguarded: if it raises,
*its* exception propagates instead of `e`.

External effects (the network fetch inside
`compute_macro_score_and_drivers`, the Supabase upserts and log inserts)
are modelled by an environment of `Except`-valued results; `RunResult`
records the successfully performed writes and the final outcome
(`Except.ok ()` = normal return, `Except.error e` = the exception `e`
propagating to the caller).  The empty summary dict `{}` of the error
entry is modelled as `none`. -/

structure DriverRec where
  key : String
  name : String
  z_raw : Option ℝ
  z_adj : ℝ
  weight : ℚ
  contribution : ℝ

structure MonthRow where
  anio : ℤ
  mes : ℕ
  score : ℝ
  regime : String
  drivers : List DriverRec

structure RunSummary where
  score_now : ℝ
  best_key : String
  best_name : String
  best_contribution : ℝ
  worst_key : String
  worst_name : String
  worst_contribution : ℝ

structure LogEntry where
  status : String
  summary : Option RunSummary
  error : Option String

structure MainEnv where
  compute : Except String (ℝ × List DriverRec)
  upsert : MonthRow → Except String Unit
  insertLog : LogEntry → Except String Unit

structure RunResult where
  upserts : List MonthRow
  logs : List LogEntry
  outcome : Except String Unit

def TARGET_YEAR : ℤ := 2026

/-- The error log entry written by the `except` handler:
`{status: "error", summary: {}, error: str(e)}`. -/
def mkErrorEntry (e : String) : LogEntry := ⟨"error", none, some e⟩

/-- The `except` handler: insert the error entry, then re-raise.  If the
insert itself raises `e2`, `e2` propagates (the bare `raise` is never
reached). -/
def errorPath (env : MainEnv) (written : List MonthRow) (e : String) : RunResult :=
  match env.insertLog (mkErrorEntry e) with
  | Except.ok _ => ⟨written, [mkErrorEntry e], Except.error e⟩
  | Except.error e2 => ⟨written, [], Except.error e2⟩

/-- The upsert loop: one row at a time, stopping at the first failure;
returns the rows successfully written and the first error, if any. -/
def attemptUpserts (up : MonthRow → Except String Unit) :
    List MonthRow → List MonthRow × Option String
  | [] => ([], none)
  | r :: rs =>
    match up r with
    | Except.error e => ([], some e)
    | Except.ok _ =>
      let p := attemptUpserts up rs
      (r :: p.1, p.2)

/-- The 12 projected month rows (`for i, score in enumerate(curve, start=1)`):
`{anio: TARGET_YEAR, mes: i, score, regime, drivers}` — the same driver
list embedded in every row. -/
noncomputable def buildRows (score : ℝ) (drivers : List DriverRec) : List MonthRow :=
  (exp_decay_curve score 12 0.22).enum.map
    (fun p => ⟨TARGET_YEAR, p.1 + 1, p.2, regime_from_score p.2, drivers⟩)

/-- The success log entry with the run summary (best/worst driver by
contribution, `sorted` being stable). -/
noncomputable def mkSuccessEntry (s : ℝ)
    (worst best : DriverRec) : LogEntry :=
  ⟨"success",
   some ⟨s, best.key, best.name, best.contribution,
         worst.key, worst.name, worst.contribution⟩,
   none⟩

noncomputable def runMain (env : MainEnv) : RunResult :=
  match env.compute with
  | Except.error e => errorPath env [] e
  | Except.ok sd =>
    let rows := buildRows sd.1 sd.2
    let p := attemptUpserts env.upsert rows
    match p.2 with
    | some e => errorPath env p.1 e
    | none =>
      match (sortKeyed (fun d => d.contribution) sd.2).head?,
            (sortKeyed (fun d => d.contribution) sd.2).getLast? with
      | some worst, some best =>
        match env.insertLog (mkSuccessEntry sd.1 worst best) with
        | Except.ok _ => ⟨p.1, [mkSuccessEntry sd.1 worst best], Except.ok ()⟩
        | Except.error e => errorPath env p.1 e
      | _, _ => errorPath env p.1 "list index out of range"

/-! Basic facts about `clamp`. -/

theorem clamp_le {α : Type} [LinearOrderedField α] (x : Option α) {lo hi : α}
    (h2 : 0 ≤ hi) (h3 : lo ≤ hi) : clamp x lo hi ≤ hi := by
  cases x with
  | none => simpa [clamp] using h2
  | some v => simp only [clamp, max_le_iff]; exact ⟨h3, min_le_left _ _⟩

theorem le_clamp {α : Type} [LinearOrderedField α] (x : Option α) {lo hi : α}
    (h1 : lo ≤ 0) : lo ≤ clamp x lo hi := by
  cases x with
  | none => simpa [clamp] using h1
  | some v => simp only [clamp]; exact le_max_left _ _

/-- **C1.** The composite score equals `clamp` of the sum of the 5 driver
contributions to `[-2, 2]`, and therefore always lies in `[-2, 2]`,
whatever the per-indicator z-score inputs (defined or undefined, of any
magnitude). -/
theorem composite_score_clamped :
    ∀ zs : String → Option ℝ,
      score_now zs = clamp (some (driverContribs zs).sum) (-2) 2
      ∧ (-2 : ℝ) ≤ score_now zs ∧ score_now zs ≤ 2 := by
  intro zs
  refine ⟨rfl, ?_, ?_⟩
  · exact le_clamp _ (by norm_num)
  · exact clamp_le _ (by norm_num) (by norm_num)

/-- **C2.** For each of the 5 scored indicators, the driver contribution
equals `weight * clamp(direction * z, -3, 3)` (the polarity-adjusted
z-score is clamped to `[-3, 3]` before weighting); whenever the
indicator's z-score is undefined its contribution is exactly `0`; and the
composite sum always ranges over all 5 weighted indicators, with no
renormalization of the weights when some z-scores are undefined. -/
theorem contribution_formula :
    ∀ (zs : String → Option ℝ) (i : Fin driver_specs.length),
      contribution (driver_specs.get i) (zs (driver_specs.get i).key)
          = ((driver_specs.get i).weight : ℝ)
            * clamp (nanMul (driver_specs.get i).direction (zs (driver_specs.get i).key)) (-3) 3
      ∧ (zs (driver_specs.get i).key = none
          → contribution (driver_specs.get i) (zs (driver_specs.get i).key) = 0)
      ∧ driverContribs zs = driver_specs.map (fun d => contribution d (zs d.key))
      ∧ score_now zs = clamp (some (driver_specs.map (fun d => contribution d (zs d.key))).sum) (-2) 2 := by
  intro zs i
  refine ⟨rfl, ?_, rfl, rfl⟩
  intro hz
  simp only [List.get_eq_getElem] at hz
  simp [contribution, hz, nanMul, clamp]

/-- Witness for `contribution_formula`: all z-scores undefined, first
indicator; its contribution is `0`. -/
theorem contribution_formula_witness :
    ((fun _ => none : String → Option ℝ) (driver_specs.get ⟨0, by decide⟩).key = none)
    ∧ contribution (driver_specs.get ⟨0, by decide⟩)
        ((fun _ => none : String → Option ℝ) (driver_specs.get ⟨0, by decide⟩).key) = 0 :=
  ⟨rfl, ((contribution_formula (fun _ => none) ⟨0, by decide⟩).2.1 rfl)⟩

/-- **C4.** The regime label is a pure function of the score, with
inclusive boundaries: `s ≥ 0.5` yields `"bull"`, `s ≤ -0.5` yields
`"bear"`, every other score yields `"neutral"`; in particular
`regime_from_score 0.5 = "bull"`, `regime_from_score (-0.5) = "bear"` and
`regime_from_score 0 = "neutral"`. -/
theorem regime_thresholds :
    (∀ s : ℝ, 0.5 ≤ s → regime_from_score s = "bull")
    ∧ (∀ s : ℝ, s ≤ -0.5 → regime_from_score s = "bear")
    ∧ (∀ s : ℝ, -0.5 < s → s < 0.5 → regime_from_score s = "neutral")
    ∧ regime_from_score (0.5 : ℝ) = "bull"
    ∧ regime_from_score (-0.5 : ℝ) = "bear"
    ∧ regime_from_score (0 : ℝ) = "neutral" := by
  refine ⟨?_, ?_, ?_, ?_, ?_, ?_⟩
  · intro s hs; simp [regime_from_score, hs]
  · intro s hs
    have h2 : ¬ (s ≥ 0.5) := by linarith
    simp [regime_from_score, h2, hs]
  · intro s h1 h2
    have h3 : ¬ (s ≥ 0.5) := by linarith
    have h4 : ¬ (s ≤ -0.5) := by linarith
    simp [regime_from_score, h3, h4]
  · show regime_from_score (0.5 : ℝ) = "bull"
    rw [regime_from_score, if_pos (by norm_num)]
  · rw [regime_from_score, if_neg (by norm_num), if_pos (by norm_num)]
  · rw [regime_from_score, if_neg (by norm_num), if_neg (by norm_num)]

/-- Witness for `regime_thresholds`: evaluates the threshold rules at
`0.7`, `-0.7` and `0.1`. -/
theorem regime_thresholds_witness :
    regime_from_score (0.7 : ℝ) = "bull"
    ∧ regime_from_score (-0.7 : ℝ) = "bear"
    ∧ regime_from_score (0.1 : ℝ) = "neutral" :=
  ⟨regime_thresholds.1 0.7 (by norm_num),
   regime_thresholds.2.1 (-0.7) (by norm_num),
   regime_thresholds.2.2.1 0.1 (by norm_num) (by norm_num)⟩

/-- **C3.** `zscore(series, window)` is undefined exactly when the series
has fewer than `max(24, window / 4)` non-missing points or when the
population standard deviation over the trailing slice is zero (σ being
"not computable" cannot occur once the length test passed); otherwise it
equals `(last non-missing value - μ) / σ`, where `μ` is the population
mean and `σ` the population standard deviation (`N` divisor) over the
trailing `window` observations — or over all non-missing observations
when fewer than `window` exist. -/
theorem zscore_characterization :
    ∀ (series : List (Option ℚ)) (window : ℕ),
      zscore series window =
        if ((series.filterMap id).length < max 24 (window / 4)
            ∨ popVar (trail (series.filterMap id) window) = 0)
        then none
        else some ((((series.filterMap id).getLastD 0
                      - popMean (trail (series.filterMap id) window) : ℚ) : ℝ)
                   / Real.sqrt (popVar (trail (series.filterMap id) window))) := by
  intro series window
  unfold zscore
  by_cases h1 : (series.filterMap id).length < max 24 (window / 4)
  · simp [h1]
  · by_cases h2 : popVar (trail (series.filterMap id) window) = 0
    · simp [h1, h2]
    · simp [h1, h2]

theorem exp_decay_curve_length (s k : ℝ) (months : ℕ) :
    (exp_decay_curve s months k).length = months := by
  rw [exp_decay_curve, List.length_map, List.length_range]

theorem exp_decay_curve_getD (s k : ℝ) {months i : ℕ} (h : i < months) :
    (exp_decay_curve s months k).getD i 0 = s * Real.exp (-k * i) := by
  rw [exp_decay_curve, List.getD_eq_getElem?_getD, List.getElem?_map, List.getElem?_range h]
  rfl

theorem exp_decay_curve_getD_of_le (s k : ℝ) {months i : ℕ} (h : months ≤ i) :
    (exp_decay_curve s months k).getD i 0 = 0 := by
  apply List.getD_eq_default
  rw [exp_decay_curve_length]
  exact h

/-- Numeric bounds for `exp (-11/50)` (that is, `exp (-0.22)`), obtained
from the degree-4 Taylor bound. -/
theorem exp_neg022_bounds :
    (4011/5000 : ℝ) < Real.exp (-(11/50 : ℝ))
    ∧ Real.exp (-(11/50 : ℝ)) < (4014/5000 : ℝ) := by
  have hb := Real.exp_bound (x := (-(11/50) : ℝ))
    (by rw [abs_le]; constructor <;> norm_num) (n := 4) (by norm_num)
  rw [abs_le] at hb
  obtain ⟨h1, h2⟩ := hb
  rw [Finset.sum_range_succ, Finset.sum_range_succ, Finset.sum_range_succ,
    Finset.sum_range_succ, Finset.sum_range_zero,
    (by rw [abs_of_neg (by norm_num : (-(11/50) : ℝ) < 0)]; norm_num :
        |(-(11/50) : ℝ)| = (11/50 : ℝ))] at h1 h2
  norm_num [Nat.factorial] at h1 h2
  constructor <;> linarith

/-- Numeric bounds for `exp (-11/25)` (that is, `exp (-0.44)`), obtained
from the degree-5 Taylor bound. -/
theorem exp_neg044_bounds :
    (6435/10000 : ℝ) < Real.exp (-(11/25 : ℝ))
    ∧ Real.exp (-(11/25 : ℝ)) < (6445/10000 : ℝ) := by
  have hb := Real.exp_bound (x := (-(11/25) : ℝ))
    (by rw [abs_le]; constructor <;> norm_num) (n := 5) (by norm_num)
  rw [abs_le] at hb
  obtain ⟨h1, h2⟩ := hb
  rw [Finset.sum_range_succ, Finset.sum_range_succ, Finset.sum_range_succ,
    Finset.sum_range_succ, Finset.sum_range_succ, Finset.sum_range_zero,
    (by rw [abs_of_neg (by norm_num : (-(11/25) : ℝ) < 0)]; norm_num :
        |(-(11/25) : ℝ)| = (11/25 : ℝ))] at h1 h2
  norm_num [Nat.factorial] at h1 h2
  constructor <;> linarith

/-- **C5.** `exp_decay_curve score months k` is an ordered sequence of
exactly `months` values with `value[i] = score * exp (-k * i)`; the first
value equals `score` exactly; and for `score = 1`, `months = 3`,
`k = 0.22` the three values are approximately `1.0`, `0.8025` and
`0.6440` (each within `1/1000`). -/
theorem projection_curve_values :
    (∀ (s k : ℝ) (months : ℕ), (exp_decay_curve s months k).length = months)
    ∧ (∀ (s k : ℝ) (months i : ℕ), i < months →
        (exp_decay_curve s months k).getD i 0 = s * Real.exp (-k * i))
    ∧ (∀ (s k : ℝ) (months : ℕ), 0 < months → (exp_decay_curve s months k).getD 0 0 = s)
    ∧ |(exp_decay_curve 1 3 0.22).getD 0 0 - 1| < 1/1000
    ∧ |(exp_decay_curve 1 3 0.22).getD 1 0 - 0.8025| < 1/1000
    ∧ |(exp_decay_curve 1 3 0.22).getD 2 0 - 0.6440| < 1/1000 := by
  have hv0 : (exp_decay_curve 1 3 0.22).getD 0 0 = 1 := by
    rw [exp_decay_curve_getD 1 0.22 (by norm_num)]
    norm_num
  have hv1 : (exp_decay_curve 1 3 0.22).getD 1 0 = Real.exp (-(11/50 : ℝ)) := by
    rw [exp_decay_curve_getD 1 0.22 (by norm_num)]
    norm_num
  have hv2 : (exp_decay_curve 1 3 0.22).getD 2 0 = Real.exp (-(11/25 : ℝ)) := by
    rw [exp_decay_curve_getD 1 0.22 (by norm_num)]
    norm_num
  refine ⟨exp_decay_curve_length, ?_, ?_, ?_, ?_, ?_⟩
  · intro s k months i h
    exact exp_decay_curve_getD s k h
  · intro s k months h
    rw [exp_decay_curve_getD s k h]
    norm_num
  · rw [hv0]; norm_num
  · rw [hv1, abs_lt]
    have h1 := exp_neg022_bounds.1
    have h2 := exp_neg022_bounds.2
    constructor <;> nlinarith
  · rw [hv2, abs_lt]
    have h1 := exp_neg044_bounds.1
    have h2 := exp_neg044_bounds.2
    constructor <;> nlinarith

/-- Witness for `projection_curve_values`: instantiates the pointwise
formula and the first-value property at `s = 2`, `k = 0.5`,
`months = 12`, `i = 3`. -/
theorem projection_curve_values_witness :
    (exp_decay_curve 2 12 0.5).getD 3 0 = 2 * Real.exp (-(0.5 : ℝ) * (3 : ℕ))
    ∧ (exp_decay_curve 2 12 0.5).getD 0 0 = 2 :=
  ⟨projection_curve_values.2.1 2 0.5 12 3 (by norm_num),
   projection_curve_values.2.2.1 2 0.5 12 (by norm_num)⟩

/-- **C10.** For every score and every decay rate `k ≥ 0`, the projected
curve is monotone toward neutral: each value has the same sign as the
current score or is zero (stated as: the product with the score is
nonnegative), consecutive values do not grow in absolute value, and
whenever the current score lies in `[-2, 2]` every one of the 12
projected scores also lies in `[-2, 2]`. -/
theorem projection_monotone_toward_neutral :
    ∀ (s k : ℝ), 0 ≤ k → ∀ (months i : ℕ),
      0 ≤ (exp_decay_curve s months k).getD i 0 * s
      ∧ (i + 1 < months →
          |(exp_decay_curve s months k).getD (i + 1) 0|
            ≤ |(exp_decay_curve s months k).getD i 0|)
      ∧ (-2 ≤ s → s ≤ 2 → ∀ v ∈ exp_decay_curve s 12 k, -2 ≤ v ∧ v ≤ 2) := by
  intro s k hk months i
  refine ⟨?_, ?_, ?_⟩
  · by_cases h : i < months
    · rw [exp_decay_curve_getD s k h]
      have := Real.exp_pos (-k * i)
      nlinarith [mul_self_nonneg s]
    · rw [exp_decay_curve_getD_of_le s k (not_lt.mp h)]
      simp
  · intro h
    have hi : i < months := Nat.lt_of_succ_lt h
    rw [exp_decay_curve_getD s k h, exp_decay_curve_getD s k hi]
    rw [abs_mul, abs_mul]
    apply mul_le_mul_of_nonneg_left _ (abs_nonneg s)
    rw [abs_of_pos (Real.exp_pos _), abs_of_pos (Real.exp_pos _)]
    apply Real.exp_le_exp.mpr
    have : (i : ℝ) ≤ ((i + 1 : ℕ) : ℝ) := by push_cast; linarith
    nlinarith
  · intro hs1 hs2 v hv
    simp only [exp_decay_curve, List.mem_map, List.mem_range] at hv
    obtain ⟨m, _hm, rfl⟩ := hv
    have hpos : 0 < Real.exp (-k * m) := Real.exp_pos _
    have hle1 : Real.exp (-k * m) ≤ 1 := by
      rw [Real.exp_le_one_iff]
      have : (0 : ℝ) ≤ (m : ℝ) := Nat.cast_nonneg m
      nlinarith
    constructor <;> nlinarith

/-- Witness for `projection_monotone_toward_neutral`: at `s = 1`,
`k = 0.22`, the second projected value is no larger in magnitude than the
first, and all 12 projected values stay in `[-2, 2]`. -/
theorem projection_monotone_toward_neutral_witness :
    |(exp_decay_curve 1 12 0.22).getD 1 0| ≤ |(exp_decay_curve 1 12 0.22).getD 0 0|
    ∧ ∀ v ∈ exp_decay_curve 1 12 0.22, -2 ≤ v ∧ v ≤ 2 :=
  ⟨((projection_monotone_toward_neutral 1 0.22 (by norm_num) 12 0).2.1 (by norm_num)),
   ((projection_monotone_toward_neutral 1 0.22 (by norm_num) 12 0).2.2 (by norm_num) (by norm_num))⟩

/-- **C7 (counterexample).** The claim that the output of `to_monthly`
contains rows only for populated months is false: with observations in
months `0` and `2` only, the output also contains a row for month `1`
(with a missing value), a month with no observations. -/
theorem to_monthly_gap_counterexample :
    to_monthly [((0 : ℤ), some (1 : ℚ)), ((2 : ℤ), some (3 : ℚ))] "last"
        = [((0 : ℤ), some (1 : ℚ)), ((1 : ℤ), none), ((2 : ℤ), some (3 : ℚ))]
    ∧ ((1 : ℤ), (none : Option ℚ))
        ∈ to_monthly [((0 : ℤ), some (1 : ℚ)), ((2 : ℤ), some (3 : ℚ))] "last"
    ∧ ∀ p ∈ [((0 : ℤ), some (1 : ℚ)), ((2 : ℤ), some (3 : ℚ))], p.1 ≠ (1 : ℤ) := by
  refine ⟨by decide, by decide, by decide⟩

/-- **C7 (amended).** `to_monthly` groups observations into
calendar-month buckets; `"last"` takes the chronologically last
non-missing value of the bucket and `"mean"` the average of its
non-missing values; the output contains exactly one row per calendar
month between the earliest and the latest observation month
(months without observations carrying a missing value), with strictly
increasing months; an empty input yields an empty output. -/
theorem to_monthly_amended :
    (∀ how : String, to_monthly [] how = [])
    ∧ ∀ (df : List (ℤ × Option ℚ)) (how : String) (lo hi : ℤ),
        (df.map (fun p => p.1)).min? = some lo →
        (df.map (fun p => p.1)).max? = some hi →
        ((to_monthly df how).map (fun p => p.1)
            = (List.range ((hi - lo).toNat + 1)).map (fun j : ℕ => lo + (j : ℤ)))
        ∧ List.Pairwise (· < ·) ((to_monthly df how).map (fun p => p.1))
        ∧ (∀ p ∈ to_monthly df how,
            p.2 = if how = "mean" then aggMean (bucket df p.1)
                  else aggLast (bucket df p.1)) := by
  constructor
  · intro how
    rfl
  · intro df how lo hi hlo hhi
    have hmonths : (to_monthly df how).map (fun p => p.1)
        = (List.range ((hi - lo).toNat + 1)).map (fun j : ℕ => lo + (j : ℤ)) := by
      rw [to_monthly, hlo, hhi, List.map_map]
      rfl
    refine ⟨hmonths, ?_, ?_⟩
    · rw [hmonths, List.pairwise_map]
      apply (List.pairwise_lt_range _).imp
      intro a b hab
      omega
    · intro p hp
      rw [to_monthly, hlo, hhi] at hp
      rw [List.mem_map] at hp
      obtain ⟨j, _, rfl⟩ := hp
      rfl

/-- Witness for `to_monthly_amended`: concrete two-observation input. -/
theorem to_monthly_amended_witness :
    ((([((5 : ℤ), some (7 : ℚ)), ((6 : ℤ), none)]).map (fun p => p.1)).min? = some 5)
    ∧ (to_monthly [((5 : ℤ), some (7 : ℚ)), ((6 : ℤ), none)] "mean").map (fun p => p.1)
        = (List.range (((6 : ℤ) - 5).toNat + 1)).map (fun j : ℕ => (5 : ℤ) + (j : ℤ)) := by
  have h := (to_monthly_amended.2 [((5 : ℤ), some (7 : ℚ)), ((6 : ℤ), none)] "mean" 5 6
    (by decide) (by decide))
  exact ⟨by decide, h.1⟩

theorem sortKeyed_eq_self {α β : Type} [LinearOrder β] (key : α → β) :
    ∀ l : List α, l.Pairwise (fun x y => key x ≤ key y) → sortKeyed key l = l := by
  intro l
  induction l with
  | nil => intro _; rfl
  | cons x l ih =>
    intro h
    rw [List.pairwise_cons] at h
    have hs : sortKeyed key (x :: l) = insertKeyed key x (sortKeyed key l) := rfl
    rw [hs, ih h.2]
    cases l with
    | nil => rfl
    | cons y l2 =>
      have hxy : key x ≤ key y := h.1 y (List.mem_cons_self y l2)
      simp [insertKeyed, hxy]

/-- `zipWith` of a function ignoring its first argument, on lists of
equal length. -/
theorem zipWith_snd {α β γ : Type} (g : β → γ) :
    ∀ (l1 : List α) (l2 : List β), l1.length = l2.length →
      List.zipWith (fun _ b => g b) l1 l2 = l2.map g := by
  intro l1
  induction l1 with
  | nil =>
    intro l2 h
    rw [List.length_nil] at h
    rw [(List.eq_nil_of_length_eq_zero h.symm)]
    rfl
  | cons a l1 ih =>
    intro l2 h
    cases l2 with
    | nil => simp at h
    | cons b l2 =>
      rw [List.length_cons, List.length_cons] at h
      simp only [List.zipWith_cons_cons, List.map_cons]
      rw [ih l2 (by omega)]

theorem getLast?_or_cons {α : Type} (a : α) (l : List α) :
    (a :: l).getLast? = l.getLast?.or (some a) := by
  cases l with
  | nil => rfl
  | cons b m =>
    rw [List.getLast?_cons_cons]
    cases h : (b :: m).getLast? with
    | none =>
      exfalso
      rw [List.getLast?_eq_none_iff] at h
      exact List.cons_ne_nil b m h
    | some c => rfl

theorem ffillAux_length :
    ∀ (vals : List (Option ℚ)) (last : Option ℚ),
      (ffillAux last vals).length = vals.length := by
  intro vals
  induction vals with
  | nil => intro last; rfl
  | cons v rest ih =>
    intro last
    cases v with
    | some q =>
      show (some q :: ffillAux (some q) rest).length = _
      rw [List.length_cons, List.length_cons, ih]
    | none =>
      show (last :: ffillAux last rest).length = _
      rw [List.length_cons, List.length_cons, ih]

theorem ffill_length (vals : List (Option ℚ)) : (ffill vals).length = vals.length :=
  ffillAux_length vals none

theorem ffillAux_getElem? :
    ∀ (vals : List (Option ℚ)) (last : Option ℚ) (i : ℕ), i < vals.length →
      (ffillAux last vals)[i]?
        = some ((((vals.take (i + 1)).filterMap id).getLast?).or last) := by
  intro vals
  induction vals with
  | nil =>
    intro last i h
    simp at h
  | cons v rest ih =>
    intro last i h
    cases v with
    | some q =>
      show (some q :: ffillAux (some q) rest)[i]? = _
      cases i with
      | zero =>
        simp [List.take_succ_cons]
      | succ i2 =>
        have h2 : i2 < rest.length := by
          rw [List.length_cons] at h
          omega
        rw [List.getElem?_cons_succ, ih (some q) i2 h2,
          List.take_succ_cons, List.filterMap_cons]
        simp only [id_eq]
        rw [getLast?_or_cons, Option.or_assoc]
        rfl
    | none =>
      show (last :: ffillAux last rest)[i]? = _
      cases i with
      | zero =>
        simp [List.take_succ_cons]
      | succ i2 =>
        have h2 : i2 < rest.length := by
          rw [List.length_cons] at h
          omega
        rw [List.getElem?_cons_succ, ih last i2 h2,
          List.take_succ_cons, List.filterMap_cons]
        simp only [id_eq]

theorem ffill_getElem? (vals : List (Option ℚ)) (i : ℕ) (h : i < vals.length) :
    (ffill vals)[i]? = some (lastObs vals i) := by
  rw [ffill, ffillAux_getElem? vals none i h, lastObs, Option.or_none]

theorem mem_of_lastObs {vals : List (Option ℚ)} {j : ℕ} {b : ℚ}
    (h : lastObs vals j = some b) : some b ∈ vals := by
  rw [lastObs] at h
  have h1 : b ∈ (vals.take (j + 1)).filterMap id := List.mem_of_getLast?_eq_some h
  rw [List.mem_filterMap] at h1
  obtain ⟨x, hx1, hx2⟩ := h1
  have hx3 : x = some b := hx2
  rw [hx3] at hx1
  exact List.mem_of_mem_take hx1

theorem filterMap_congr_pointwise {A B C : Type} (g : A → Option C) (h : B → Option C) :
    ∀ (L : List A) (M : List B), L.length = M.length →
      (∀ (i : ℕ) (hL : i < L.length) (hM : i < M.length), g L[i] = h M[i]) →
      L.filterMap g = M.filterMap h := by
  intro L
  induction L with
  | nil =>
    intro M hlen _
    rw [(List.eq_nil_of_length_eq_zero hlen.symm)]
    rfl
  | cons a L2 ih =>
    intro M hlen hpt
    cases M with
    | nil => simp at hlen
    | cons b M2 =>
      have h0 := hpt 0 (by simp) (by simp)
      simp only [List.getElem_cons_zero] at h0
      have hrest : L2.filterMap g = M2.filterMap h := by
        apply ih M2 (by simpa using hlen)
        intro i hL2 hM2
        have := hpt (i + 1) (by simpa using Nat.succ_lt_succ hL2)
          (by simpa using Nat.succ_lt_succ hM2)
        simpa only [List.getElem_cons_succ] using this
      rw [List.filterMap_cons, List.filterMap_cons, h0]
      cases hhb : h b <;> simp [hrest]

theorem pctChange12_length (vals : List (Option ℚ)) :
    (pctChange12 vals).length = vals.length := by
  rw [pctChange12, List.length_append, List.length_replicate, List.length_zipWith,
    List.length_drop, ffill_length]
  omega

theorem pctChange12_getElem? (vals : List (Option ℚ)) (i : ℕ) (h : i < vals.length) :
    (pctChange12 vals)[i]?
      = some (if i < 12 then none
              else pctStep (lastObs vals i) (lastObs vals (i - 12))) := by
  rw [pctChange12]
  by_cases h12 : i < 12
  · rw [List.getElem?_append, if_pos (by rw [List.length_replicate]; omega)]
    rw [List.getElem?_replicate, if_pos (by omega), if_pos h12]
  · have hmin : min 12 vals.length = 12 := by omega
    rw [List.getElem?_append_right (by rw [List.length_replicate]; omega)]
    rw [List.length_replicate, hmin, List.getElem?_zipWith, List.getElem?_drop]
    have h1 : 12 + (i - 12) = i := by omega
    rw [h1, ffill_getElem? vals i h, ffill_getElem? vals (i - 12) (by omega)]
    rw [if_neg h12]

/-- `yoy_from_level` on a contiguous monthly series starting at month
`m0`, with arbitrary missing values but no zero level: one row for the
month at index `i` exactly when `i ≥ 12` and some observation exists at
or before index `i - 12`, the value computed from the forward-filled
(most recent at-or-before) observations. -/
theorem yoy_from_level_ffill_general :
    ∀ (m0 : ℤ) (vals : List (Option ℚ)),
      (∀ q : ℚ, some q ∈ vals → q ≠ 0) →
      yoy_from_level
          (List.zipWith (fun (j : ℕ) (v : Option ℚ) => (m0 + (j : ℤ), v))
            (List.range vals.length) vals)
        = (List.range vals.length).filterMap (fun i =>
            if 12 ≤ i then
              match lastObs vals (i - 12), lastObs vals i with
              | some b, some a => some (m0 + (i : ℤ), FloatVal.fin ((a / b - 1) * 100))
              | _, _ => none
            else none) := by
  intro m0 vals hnz
  set n := vals.length with hdefn
  set xs := List.zipWith (fun (j : ℕ) (v : Option ℚ) => (m0 + (j : ℤ), v))
    (List.range n) vals with hxs
  have hxslen : xs.length = n := by
    rw [hxs, List.length_zipWith, List.length_range, hdefn]
    exact min_self _
  -- the input is already sorted by month, so the stable sort is the identity
  have hsorted : sortKeyed (fun p => p.1) xs = xs := by
    apply sortKeyed_eq_self
    rw [List.pairwise_iff_get]
    intro i j hij
    have hget : ∀ k : Fin xs.length, (xs.get k).1 = m0 + ((k : ℕ) : ℤ) := by
      intro k
      have hk : (k : ℕ) < (List.range n).length := by
        rw [List.length_range, ← hxslen]; exact k.isLt
      simp only [hxs, List.get_eq_getElem, List.getElem_zipWith, List.getElem_range]
    rw [hget i, hget j]
    have hij2 : (i : ℕ) < (j : ℕ) := hij
    omega
  -- the value column of the sorted input is the value list itself
  have hvals : xs.map (fun p => p.2) = vals := by
    rw [hxs, List.map_zipWith]
    have h2 := zipWith_snd (id : Option ℚ → Option ℚ) (List.range n) vals
      (by rw [List.length_range, hdefn])
    rw [List.map_id] at h2
    exact h2
  rw [yoy_from_level, hsorted, hvals]
  apply filterMap_congr_pointwise
  · rw [List.length_zip, hxslen, pctChange12_length, ← hdefn, List.length_range]
    exact min_self _
  · intro i hL hM
    have hin : i < n := by
      rw [List.length_range] at hM
      exact hM
    have hixs : i < xs.length := by rw [hxslen]; exact hin
    have hivals : i < vals.length := by rw [← hdefn]; exact hin
    have hipc : i < (pctChange12 vals).length := by rw [pctChange12_length, ← hdefn]; exact hin
    rw [List.getElem_zip, List.getElem_range]
    have hxi : xs[i] = (m0 + (i : ℤ), vals[i]) := by
      simp only [hxs, List.getElem_zipWith, List.getElem_range]
    have hpci : (pctChange12 vals)[i]
        = (if i < 12 then none
           else pctStep (lastObs vals i) (lastObs vals (i - 12))) := by
      have h3 := pctChange12_getElem? vals i hivals
      rw [List.getElem?_eq_getElem hipc] at h3
      exact Option.some.inj h3
    show ((pctChange12 vals)[i]).map
        (fun y => ((xs[i]).1, y)) = _
    rw [hxi, hpci]
    by_cases h12 : 12 ≤ i
    · rw [if_neg (by omega), if_pos h12]
      cases hb : lastObs vals (i - 12) with
      | none =>
        cases ha : lastObs vals i with
        | none => rfl
        | some a => rfl
      | some b =>
        cases ha : lastObs vals i with
        | none => rfl
        | some a =>
          have hbne : b ≠ 0 := hnz b (mem_of_lastObs hb)
          show (pctStep (some a) (some b)).map _ = _
          rw [pctStep]
          rw [if_neg hbne]
          rfl
    · rw [if_pos (by omega), if_neg h12]
      rfl

/-- **C6 (counterexample).** The claim that `yoy_from_level` outputs a
row for month `m` *iff* an observation exactly 12 calendar months prior
exists (dropping all other months, with no interpolation) is false on
series with missing values: for the contiguous monthly series over
months `0..13` whose month-`1` observation is missing, the output
contains a row for month `13` — whose 12-months-prior month `1` has no
observation — because pandas `pct_change`'s default `fill_method="pad"`
forward-fills the missing value with the month-`0` observation before
differencing. -/
theorem yoy_missing_prior_counterexample :
    (yoy_from_level
        [((0 : ℤ), some (100 : ℚ)), (1, none), (2, some 102), (3, some 103),
         (4, some 104), (5, some 105), (6, some 106), (7, some 107), (8, some 108),
         (9, some 109), (10, some 110), (11, some 111), (12, some 112),
         (13, some 113)]).map (fun p => p.1) = [12, 13]
    ∧ ∀ p ∈ [((0 : ℤ), some (100 : ℚ)), (1, none), (2, some 102), (3, some 103),
         (4, some 104), (5, some 105), (6, some 106), (7, some 107), (8, some 108),
         (9, some 109), (10, some 110), (11, some 111), (12, some 112),
         (13, some 113)], p.1 = (1 : ℤ) → p.2 = none := by
  refine ⟨by decide, by decide⟩

/-- **C6 (amended).** For every contiguous monthly level series (the
shape `to_monthly` produces) with no zero level values, `yoy_from_level`
outputs a row for month `m` exactly when `m` is at least the 13th month
of the index and some observation exists at or before the month 12
months prior; its value is `(v[m] / v[m-12] - 1) * 100` computed on the
forward-filled series — pandas `pct_change`'s default
`fill_method="pad"` replaces each missing value by the most recent
earlier observation before differencing, so months whose own or whose
12-months-prior value is missing are not dropped when an earlier
observation exists.  In particular, for 13 consecutive fully-observed
monthly levels `100, 101, …, 112` the output is exactly one row (the
13th month) with value `12`, as the original claim stated. -/
theorem yoy_from_level_ffill_characterization :
    (∀ (m0 : ℤ) (vals : List (Option ℚ)),
      (∀ q : ℚ, some q ∈ vals → q ≠ 0) →
      yoy_from_level
          (List.zipWith (fun (j : ℕ) (v : Option ℚ) => (m0 + (j : ℤ), v))
            (List.range vals.length) vals)
        = (List.range vals.length).filterMap (fun i =>
            if 12 ≤ i then
              match lastObs vals (i - 12), lastObs vals i with
              | some b, some a => some (m0 + (i : ℤ), FloatVal.fin ((a / b - 1) * 100))
              | _, _ => none
            else none))
    ∧ yoy_from_level
        [((0 : ℤ), some (100 : ℚ)), (1, some 101), (2, some 102), (3, some 103),
         (4, some 104), (5, some 105), (6, some 106), (7, some 107), (8, some 108),
         (9, some 109), (10, some 110), (11, some 111), (12, some 112)]
        = [((12 : ℤ), FloatVal.fin 12)] := by
  refine ⟨yoy_from_level_ffill_general, ?_⟩
  have hnz : ∀ q : ℚ, some q ∈ ([some 100, some 101, some 102, some 103, some 104,
      some 105, some 106, some 107, some 108, some 109, some 110, some 111,
      some 112] : List (Option ℚ)) → q ≠ 0 := by
    intro q hq
    simp only [List.mem_cons, List.not_mem_nil, or_false, Option.some.injEq] at hq
    rcases hq with rfl | rfl | rfl | rfl | rfl | rfl | rfl | rfl | rfl | rfl | rfl | rfl | rfl
      <;> norm_num
  have h := yoy_from_level_ffill_general 0 [some 100, some 101, some 102, some 103,
    some 104, some 105, some 106, some 107, some 108, some 109, some 110, some 111,
    some 112] hnz
  have hin : List.zipWith (fun (j : ℕ) (v : Option ℚ) => ((0 : ℤ) + (j : ℤ), v))
      (List.range ([some 100, some 101, some 102, some 103, some 104, some 105,
        some 106, some 107, some 108, some 109, some 110, some 111,
        some 112] : List (Option ℚ)).length)
      [some 100, some 101, some 102, some 103, some 104, some 105, some 106,
       some 107, some 108, some 109, some 110, some 111, some 112]
      = [((0 : ℤ), some (100 : ℚ)), (1, some 101), (2, some 102), (3, some 103),
         (4, some 104), (5, some 105), (6, some 106), (7, some 107), (8, some 108),
         (9, some 109), (10, some 110), (11, some 111), (12, some 112)] := by
    decide
  rw [hin] at h
  rw [h]
  have hlen13 : ([some 100, some 101, some 102, some 103, some 104, some 105,
      some 106, some 107, some 108, some 109, some 110, some 111,
      some 112] : List (Option ℚ)).length = 13 := by decide
  rw [hlen13]
  have hrange : List.range 13 = [0, 1, 2, 3, 4, 5, 6, 7, 8, 9, 10, 11, 12] := by decide
  rw [hrange]
  have hL0 : lastObs [some 100, some 101, some 102, some 103, some 104, some 105,
      some 106, some 107, some 108, some 109, some 110, some 111, some 112] 0
      = some 100 := by decide
  have hL12 : lastObs [some 100, some 101, some 102, some 103, some 104, some 105,
      some 106, some 107, some 108, some 109, some 110, some 111, some 112] 12
      = some 112 := by decide
  norm_num [hL0, hL12]
  rw [List.filterMap_cons, List.filterMap_nil]
  norm_num [hL0, hL12]

/-- Witness for `yoy_from_level_ffill_characterization`: the nonzero
hypothesis discharged at the one-observation series `[some 1]`. -/
theorem yoy_from_level_ffill_characterization_witness :
    (∀ q : ℚ, some q ∈ ([some 1] : List (Option ℚ)) → q ≠ 0)
    ∧ yoy_from_level
        (List.zipWith (fun (j : ℕ) (v : Option ℚ) => ((7 : ℤ) + (j : ℤ), v))
          (List.range ([some 1] : List (Option ℚ)).length) [some 1])
      = (List.range ([some 1] : List (Option ℚ)).length).filterMap (fun i =>
          if 12 ≤ i then
            match lastObs [some 1] (i - 12), lastObs [some 1] i with
            | some b, some a => some ((7 : ℤ) + (i : ℤ), FloatVal.fin ((a / b - 1) * 100))
            | _, _ => none
          else none) :=
  ⟨by
    intro q hq
    simp only [List.mem_cons, List.not_mem_nil, or_false, Option.some.injEq] at hq
    rw [hq]
    norm_num,
   yoy_from_level_ffill_characterization.1 7 [some 1] (by
    intro q hq
    simp only [List.mem_cons, List.not_mem_nil, or_false, Option.some.injEq] at hq
    rw [hq]
    norm_num)⟩

theorem attemptUpserts_fst_of_none (up : MonthRow → Except String Unit) :
    ∀ l : List MonthRow, (attemptUpserts up l).2 = none → (attemptUpserts up l).1 = l := by
  intro l
  induction l with
  | nil => intro _; rfl
  | cons r rs ih =>
    intro h
    cases hu : up r with
    | error e =>
      rw [attemptUpserts, hu] at h
      simp at h
    | ok _ =>
      rw [attemptUpserts, hu] at h ⊢
      simp only at h ⊢
      rw [ih h]

theorem attemptUpserts_allOk :
    ∀ l : List MonthRow, attemptUpserts (fun _ => Except.ok ()) l = (l, none) := by
  intro l
  induction l with
  | nil => rfl
  | cons r rs ih =>
    rw [attemptUpserts]
    simp only [ih]

theorem errorPath_outcome_ne_ok (env : MainEnv) (w : List MonthRow) (e : String) :
    (errorPath env w e).outcome ≠ Except.ok () := by
  rw [errorPath]
  cases h : env.insertLog (mkErrorEntry e) <;> simp

theorem buildRows_facts (s : ℝ) (drv : List DriverRec) :
    (buildRows s drv).length = 12
    ∧ (buildRows s drv).map (fun r => r.mes) = [1, 2, 3, 4, 5, 6, 7, 8, 9, 10, 11, 12]
    ∧ ∀ r ∈ buildRows s drv, r.drivers = drv ∧ r.anio = TARGET_YEAR := by
  refine ⟨?_, ?_, ?_⟩
  · rw [buildRows, List.length_map, List.enum_length, exp_decay_curve_length]
  · rw [buildRows, List.map_map]
    show ((exp_decay_curve s 12 0.22).enum.map ((fun m => m + 1) ∘ Prod.fst)) = _
    rw [← List.map_map, List.enum_map_fst, exp_decay_curve_length]
    decide
  · intro r hr
    rw [buildRows, List.mem_map] at hr
    obtain ⟨p, _, rfl⟩ := hr
    exact ⟨rfl, rfl⟩

/-- **C8 (counterexample).** The claim that the original exception still
propagates when writing the error log entry fails is false: with the
compute step failing with `"boom"` and the log insert failing with
`"logfail"`, the run propagates `"logfail"`, not `"boom"`, and records no
log entry at all (the unguarded insert in the `except` block masks the
original exception and the bare `raise` is never reached). -/
theorem error_log_masking_counterexample :
    (runMain ⟨Except.error "boom", fun _ => Except.ok (),
        fun _ => Except.error "logfail"⟩).outcome = Except.error "logfail"
    ∧ (runMain ⟨Except.error "boom", fun _ => Except.ok (),
        fun _ => Except.error "logfail"⟩).outcome ≠ Except.error "boom"
    ∧ (runMain ⟨Except.error "boom", fun _ => Except.ok (),
        fun _ => Except.error "logfail"⟩).logs = [] := by
  refine ⟨?_, ?_, ?_⟩ <;> simp [runMain, errorPath]

/-- **C8 (amended).** Every failing run passes through the single error
handler, which attempts exactly one error log entry with status
`"error"`, an empty summary and the exception's message; if that write
succeeds, the run records exactly that one entry and re-raises the
original exception; if the write itself fails, the *logging* exception
propagates instead of the original one (and nothing is recorded). -/
theorem error_logging_amended :
    ∀ (env : MainEnv) (w : List MonthRow) (e : String),
      (env.insertLog (mkErrorEntry e) = Except.ok () →
        errorPath env w e
          = ⟨w, [⟨"error", none, some e⟩], Except.error e⟩)
      ∧ (∀ e2, env.insertLog (mkErrorEntry e) = Except.error e2 →
        errorPath env w e = ⟨w, [], Except.error e2⟩)
      ∧ (env.compute = Except.error e → runMain env = errorPath env [] e)
      ∧ ((runMain env).outcome ≠ Except.ok () →
          ∃ w2 e0, runMain env = errorPath env w2 e0) := by
  intro env w e
  refine ⟨?_, ?_, ?_, ?_⟩
  · intro h
    rw [errorPath, h]
    rfl
  · intro e2 h
    rw [errorPath, h]
  · intro h
    rw [runMain, h]
  · intro hne
    cases hc : env.compute with
    | error e1 =>
      refine ⟨[], e1, ?_⟩
      rw [runMain, hc]
    | ok sd =>
      cases hp : (attemptUpserts env.upsert (buildRows sd.1 sd.2)).2 with
      | some e1 =>
        refine ⟨(attemptUpserts env.upsert (buildRows sd.1 sd.2)).1, e1, ?_⟩
        rw [runMain, hc]
        simp only [hp]
      | none =>
        cases hh : (sortKeyed (fun d => d.contribution) sd.2).head? with
        | none =>
          refine ⟨(attemptUpserts env.upsert (buildRows sd.1 sd.2)).1,
            "list index out of range", ?_⟩
          rw [runMain, hc]
          simp only [hp, hh]
        | some worst =>
          cases hl : (sortKeyed (fun d => d.contribution) sd.2).getLast? with
          | none =>
            refine ⟨(attemptUpserts env.upsert (buildRows sd.1 sd.2)).1,
              "list index out of range", ?_⟩
            rw [runMain, hc]
            simp only [hp, hh, hl]
          | some best =>
            cases hlog : env.insertLog (mkSuccessEntry sd.1 worst best) with
            | error e1 =>
              refine ⟨(attemptUpserts env.upsert (buildRows sd.1 sd.2)).1, e1, ?_⟩
              rw [runMain, hc]
              simp only [hp, hh, hl, hlog]
            | ok u =>
              exfalso
              apply hne
              rw [runMain, hc]
              simp only [hp, hh, hl, hlog]

/-- Witness for `error_logging_amended`: a run whose compute step fails
with `"boom"` and whose log insert succeeds records exactly the one
error entry and re-raises `"boom"`. -/
theorem error_logging_amended_witness :
    errorPath ⟨Except.error "boom", fun _ => Except.ok (), fun _ => Except.ok ()⟩ [] "boom"
        = ⟨[], [⟨"error", none, some "boom"⟩], Except.error "boom"⟩
    ∧ runMain ⟨Except.error "boom", fun _ => Except.ok (), fun _ => Except.ok ()⟩
        = errorPath ⟨Except.error "boom", fun _ => Except.ok (), fun _ => Except.ok ()⟩ [] "boom" :=
  ⟨(error_logging_amended ⟨Except.error "boom", fun _ => Except.ok (), fun _ => Except.ok ()⟩
      [] "boom").1 rfl,
   (error_logging_amended ⟨Except.error "boom", fun _ => Except.ok (), fun _ => Except.ok ()⟩
      [] "boom").2.2.1 rfl⟩

/-- **C9.** Every successful run upserts exactly the 12 projected month
rows for the target year: month indices `1` through `12`, each exactly
once, and every row embeds the same driver snapshot (the driver list is
not recomputed per projected month). -/
theorem projected_rows_structure :
    ∀ (env : MainEnv) (s : ℝ) (drv : List DriverRec),
      env.compute = Except.ok (s, drv) →
      (runMain env).outcome = Except.ok () →
      (runMain env).upserts = buildRows s drv
      ∧ (runMain env).upserts.length = 12
      ∧ (runMain env).upserts.map (fun r => r.mes) = [1, 2, 3, 4, 5, 6, 7, 8, 9, 10, 11, 12]
      ∧ ∀ r ∈ (runMain env).upserts, r.drivers = drv ∧ r.anio = TARGET_YEAR := by
  intro env s drv hc hok
  have hup : (runMain env).upserts = buildRows s drv := by
    cases hp : (attemptUpserts env.upsert (buildRows s drv)).2 with
    | some e1 =>
      exfalso
      apply errorPath_outcome_ne_ok env (attemptUpserts env.upsert (buildRows s drv)).1 e1
      rw [← hok, runMain, hc]
      simp only [hp]
    | none =>
      have hfst := attemptUpserts_fst_of_none env.upsert (buildRows s drv) hp
      cases hh : (sortKeyed (fun d => d.contribution) drv).head? with
      | none =>
        exfalso
        apply errorPath_outcome_ne_ok env (attemptUpserts env.upsert (buildRows s drv)).1
          "list index out of range"
        rw [← hok, runMain, hc]
        simp only [hp, hh]
      | some worst =>
        cases hl : (sortKeyed (fun d => d.contribution) drv).getLast? with
        | none =>
          exfalso
          apply errorPath_outcome_ne_ok env (attemptUpserts env.upsert (buildRows s drv)).1
            "list index out of range"
          rw [← hok, runMain, hc]
          simp only [hp, hh, hl]
        | some best =>
          cases hlog : env.insertLog (mkSuccessEntry s worst best) with
          | error e1 =>
            exfalso
            apply errorPath_outcome_ne_ok env (attemptUpserts env.upsert (buildRows s drv)).1 e1
            rw [← hok, runMain, hc]
            simp only [hp, hh, hl, hlog]
          | ok u =>
            rw [runMain, hc]
            simp only [hp, hh, hl, hlog]
            exact hfst
  rw [hup]
  exact ⟨rfl, (buildRows_facts s drv).1, (buildRows_facts s drv).2.1, (buildRows_facts s drv).2.2⟩

/-- Witness for `projected_rows_structure`: a fully successful concrete
run (compute yields score `0` with one driver, all writes succeed) whose
12 upserted rows carry the months `1`–`12`. -/
theorem projected_rows_structure_witness :
    (runMain ⟨Except.ok ((0 : ℝ), [⟨"k", "n", none, 0, 0, 0⟩]),
        fun _ => Except.ok (), fun _ => Except.ok ()⟩).upserts.map (fun r => r.mes)
      = [1, 2, 3, 4, 5, 6, 7, 8, 9, 10, 11, 12] := by
  have hout : (runMain ⟨Except.ok ((0 : ℝ), [⟨"k", "n", none, 0, 0, 0⟩]),
      fun _ => Except.ok (), fun _ => Except.ok ()⟩).outcome = Except.ok () := by
    have h1 := attemptUpserts_allOk (buildRows (0 : ℝ) [⟨"k", "n", none, 0, 0, 0⟩])
    rw [runMain]
    simp only [h1, sortKeyed, List.foldr, insertKeyed, List.head?, List.getLast?]
  exact (projected_rows_structure _ 0 _ rfl hout).2.2.1

end UpdateMacro
